import Mathlib

/-!
# Verification of the IT attendance tracker's aggregation core

A shallow embedding, in Lean 4, of the attendance-tracking web
application's data model and of the handlers that the specification's
claims are about: the period matcher used by the mark-attendance
endpoint, the attendance upsert, the bulk historical-edit path, the
period-deletion cascade, the history-grid construction with its
week/month windows, and the per-student report aggregation.

Rows of the relevant tables (`timetable_periods`, `attendance`,
`students`) are Lean structures; the database is a record of lists of
rows.  Times of day are minutes since midnight (the SQL compares `TIME`
values, a total order).  Calendar dates are day numbers (days since
1970-01-01, the JavaScript epoch), with an explicit civil-calendar
conversion for the month-window arithmetic.  SQL query results are
modelled by the standard relational semantics of the concrete queries
in the source (filter / left-join / group-by over the row lists).
-/

namespace ITAttendance

/-- Attendance status: the `attendance.status` column is constrained to
the values P (present) and A (absent). -/
inductive Status where
  | P
  | A
deriving DecidableEq, Repr

/-- One row of `timetable_periods`.  `class_id`, `teacher_id` are
nullable foreign keys; `day_of_week` uses 1 = Monday … 7 = Sunday;
`start_time`/`end_time` are minutes since midnight. -/
structure Period where
  id : Nat
  class_id : Option Nat
  day_of_week : Nat
  period_number : Nat
  start_time : Nat
  end_time : Nat
  teacher_id : Option Nat
  is_break : Bool
deriving DecidableEq, Repr

/-- One row of `attendance`.  `period_id` is nullable (manual historical
entries have no period); `date` is a day number. -/
structure Attendance where
  id : Nat
  student_id : Nat
  class_id : Option Nat
  period_id : Option Nat
  date : Int
  status : Status
  marked_by : Option Nat
deriving DecidableEq, Repr

/-- One row of `students` (the columns the claims need). -/
structure Student where
  id : Nat
  class_id : Option Nat
  roll_no : Nat
deriving DecidableEq, Repr

/-- The database state: the three tables the claims are about, plus the
next value of the SERIAL id sequence for inserts. -/
structure DB where
  periods : List Period
  attendance : List Attendance
  students : List Student
  nextId : Nat
deriving DecidableEq, Repr

/-! ## Period Matcher

The current-period query of `POST /teacher/mark-attendance`
(src/server.js:593-608):

  WHERE tp.class_id = $1 AND tp.teacher_id = $2 AND tp.day_of_week = $3
    AND tp.start_time <= $4 AND tp.end_time >= $4 AND tp.is_break = false
  ORDER BY tp.period_number LIMIT 1
-/

/-- The row predicate of the current-period query. -/
def periodMatches (classId teacherId day time : Nat) (p : Period) : Bool :=
  p.class_id == some classId && p.teacher_id == some teacherId &&
  p.day_of_week == day && decide (p.start_time ≤ time) &&
  decide (time ≤ p.end_time) && !p.is_break

/-- ORDER BY period_number LIMIT 1: the first row of minimal
period-number (SQL leaves the order among ties unspecified; this picks
the earliest, which the uniqueness invariant below makes irrelevant). -/
def minByPeriodNumber : List Period → Option Period
  | [] => none
  | p :: ps =>
    match minByPeriodNumber ps with
    | none => some p
    | some q => if p.period_number ≤ q.period_number then some p else some q

/-- The current-period query of the mark-attendance handler. -/
def findCurrentPeriod (db : DB) (classId teacherId day time : Nat) :
    Option Period :=
  minByPeriodNumber (db.periods.filter (periodMatches classId teacherId day time))

/-- Schema invariant `UNIQUE(class_id, day_of_week, period_number)` on
`timetable_periods`, together with the primary key: two stored periods
agreeing on class, day and period-number are the same row. -/
def PeriodsUnique (db : DB) : Prop :=
  ∀ p ∈ db.periods, ∀ q ∈ db.periods,
    p.class_id = q.class_id → p.day_of_week = q.day_of_week →
    p.period_number = q.period_number → p = q

/-- Primary-key invariant on `timetable_periods`: ids are unique. -/
def PeriodIdsUnique (db : DB) : Prop :=
  ∀ p ∈ db.periods, ∀ q ∈ db.periods, p.id = q.id → p = q

/-- Propositional reading of one row of the current-period query's
WHERE clause. -/
def MatchesProp (classId teacherId day time : Nat) (p : Period) : Prop :=
  p.class_id = some classId ∧ p.teacher_id = some teacherId ∧
  p.day_of_week = day ∧ p.start_time ≤ time ∧ time ≤ p.end_time ∧
  p.is_break = false

instance (classId teacherId day time : Nat) (p : Period) :
    Decidable (MatchesProp classId teacherId day time p) := by
  unfold MatchesProp; infer_instance

/-! ## Attendance Recorder

`POST /teacher/mark-attendance` (src/server.js:588-630): resolve the
teacher's current period with the live clock, fail with NoActivePeriod
when none, else

  INSERT INTO attendance (student_id, class_id, period_id, date, status, marked_by)
  VALUES ... ON CONFLICT (student_id, date, period_id) DO UPDATE SET status, marked_by
-/

/-- The conflict key of the upsert: (student_id, date, period_id) with a
non-null period. -/
def keyMatch (sid : Nat) (date : Int) (pid : Nat) (a : Attendance) : Bool :=
  a.student_id == sid && a.date == date && a.period_id == some pid

/-- The `ON CONFLICT ... DO UPDATE` insert: update the row(s) carrying
the conflict key if present, else append a fresh row. -/
def upsertAttendance (db : DB) (sid cid pid : Nat) (date : Int)
    (st : Status) (tid : Nat) : DB :=
  if db.attendance.any (keyMatch sid date pid) then
    { db with attendance := db.attendance.map (fun a =>
        if keyMatch sid date pid a then
          { a with status := st, marked_by := some tid }
        else a) }
  else
    { db with
      attendance := db.attendance ++
        [{ id := db.nextId, student_id := sid, class_id := some cid,
           period_id := some pid, date := date, status := st,
           marked_by := some tid }],
      nextId := db.nextId + 1 }

/-- Outcome of the mark-attendance handler. -/
inductive MarkResult where
  | noActivePeriod
  | success (periodId : Nat)
deriving DecidableEq, Repr

/-- The mark-attendance handler.  `nowDay`/`nowTime` come from the live
clock (`getCurrentDayOfWeek()` / `getCurrentTime()`); `date` is the
caller-supplied date stored on the record. -/
def markAttendance (db : DB) (sid cid : Nat) (st : Status) (date : Int)
    (tid nowDay nowTime : Nat) : MarkResult × DB :=
  match findCurrentPeriod db cid tid nowDay nowTime with
  | none => (.noActivePeriod, db)
  | some p => (.success p.id, upsertAttendance db sid cid p.id date st tid)

/-- Sample period: class 1, Monday, period 1, 09:00–10:00, teacher 5. -/
def samplePeriod : Period :=
  { id := 1, class_id := some 1, day_of_week := 1, period_number := 1,
    start_time := 540, end_time := 600, teacher_id := some 5,
    is_break := false }

/-- Sample database holding just `samplePeriod`. -/
def sampleDB : DB :=
  { periods := [samplePeriod], attendance := [], students := [], nextId := 1 }


/-! ## Bulk historical edit

`POST /api/attendance/bulk-update` (src/server.js:1617-1683): for each
(studentId, date, status) triple, delete all attendance rows for
(student, date) when status is empty, else update the status of all such
rows when one exists, else insert a fresh row with no period and no
class attribution.
-/

/-- One entry of the bulk-update request; `none` models the empty
status string. -/
structure Change where
  studentId : Nat
  date : Int
  status : Option Status
deriving DecidableEq, Repr

/-- The row condition of the bulk-update statements:
`WHERE student_id = $1 AND date = $2` — no period_id restriction. -/
def bulkKey (c : Change) (a : Attendance) : Bool :=
  a.student_id == c.studentId && a.date == c.date

/-- One iteration of the bulk-update loop. -/
def applyChange (tid : Nat) (db : DB) (c : Change) : DB :=
  match c.status with
  | none =>
    { db with attendance := db.attendance.filter (fun a => !(bulkKey c a)) }
  | some st =>
    if db.attendance.any (bulkKey c) then
      { db with attendance := db.attendance.map (fun a =>
          if bulkKey c a then { a with status := st } else a) }
    else
      { db with
        attendance := db.attendance ++
          [{ id := db.nextId, student_id := c.studentId, class_id := none,
             period_id := none, date := c.date, status := st,
             marked_by := some tid }],
        nextId := db.nextId + 1 }

/-- The whole bulk-update loop. -/
def bulkUpdate (db : DB) (tid : Nat) (changes : List Change) : DB :=
  changes.foldl (applyChange tid) db

/-! ## Period deletion

`DELETE /api/timetable/period/:periodId` (src/server.js:1409-1451)
together with the schema's `ON DELETE CASCADE` from
`attendance.period_id` to `timetable_periods.id`
(src/config/postgres.js:160-165): a missing period yields a 404 and no
change; otherwise the period row is deleted and the cascade removes
every attendance row referencing it.
-/

/-- The period-deletion handler; `none` models the 404 response. -/
def deletePeriod (db : DB) (periodId : Nat) : Option DB :=
  if db.periods.any (fun p => p.id == periodId) then
    some { db with
      periods := db.periods.filter (fun p => !(p.id == periodId)),
      attendance := db.attendance.filter (fun a => !(a.period_id == some periodId)) }
  else none

/-! ## Date windows

The history handler's date-range computation (src/server.js:760-800).
Dates are day numbers (days since 1970-01-01); `jsDow` is JavaScript's
`Date.getDay` (0 = Sunday … 6 = Saturday; day 0 of the epoch was a
Thursday).  `civilToDay` converts a proleptic-Gregorian civil date
(year ≥ 1) to its day number, mirroring what the JavaScript `Date`
constructor computes for `new Date(y, m-1, d)`.
-/

/-- JavaScript `Date.getDay`: 0 = Sunday … 6 = Saturday. -/
def jsDow (g : Int) : Int := (g + 4) % 7

/-- Week-view start: `daysToMonday = dayOfWeek === 0 ? -6 : 1 - dayOfWeek`
applied to the reference date. -/
def weekStart (g : Int) : Int :=
  g + (if jsDow g = 0 then -6 else 1 - jsDow g)

/-- The seven enumerated dates of the week view. -/
def weekDates (g : Int) : List Int :=
  (List.range 7).map (fun i : Nat => weekStart g + (i : Int))

/-- Day number of the civil date (y, m, d), for y ≥ 1, 1 ≤ m ≤ 12
(era/year-of-era/day-of-year decomposition of the proleptic Gregorian
calendar, anchored so that 1970-01-01 is day 0). -/
def civilToDay (y m d : Nat) : Int :=
  (((if m ≤ 2 then y - 1 else y) / 400) * 146097 +
   (((if m ≤ 2 then y - 1 else y) % 400) * 365 +
    ((if m ≤ 2 then y - 1 else y) % 400) / 4 -
    ((if m ≤ 2 then y - 1 else y) % 400) / 100 +
    ((153 * (if m ≤ 2 then m + 9 else m - 3) + 2) / 5 + (d - 1))) : Nat) -
  719468

/-- The Gregorian leap-year rule. -/
def isLeap (y : Nat) : Bool :=
  (y % 4 == 0 && y % 100 != 0) || y % 400 == 0

/-- The calendar's month lengths (the specification side of the
month-window claim). -/
def gregDaysInMonth (y m : Nat) : Nat :=
  if m = 2 then (if isLeap y then 29 else 28)
  else if m = 4 ∨ m = 6 ∨ m = 9 ∨ m = 11 then 30 else 31

/-- JavaScript month-index normalization for `monthIndex + 1`. -/
def nextMonth (y m : Nat) : Nat × Nat :=
  if m + 1 > 12 then (y + 1, 1) else (y, m + 1)

/-- Month-view window: start = `new Date(y, mIdx, 1)`, end =
`new Date(y, mIdx + 1, 0)` (the day before the first of the next
month), and one enumerated date per day counted by `getDate()` of the
end. -/
def monthWindow (y m : Nat) : Int × Int × List Int :=
  (civilToDay y m 1,
   civilToDay (nextMonth y m).1 (nextMonth y m).2 1 - 1,
   (List.range (civilToDay (nextMonth y m).1 (nextMonth y m).2 1 - 1 -
       civilToDay y m 1 + 1).toNat).map
     (fun i : Nat => civilToDay y m 1 + (i : Int)))

/-! ## History grid

`GET /teacher/attendance/:classId/history` (src/server.js:854-903): a
student × date → (period-or-general → status) grid, seeded from the
teacher's non-break periods of each date's weekday and then overlaid
with the window's attendance records.
-/

/-- A grid cell is keyed by a period id or by the string 'general'. -/
inductive CellKey where
  | general
  | period (pid : Nat)
deriving DecidableEq, Repr

/-- One per-date cell map, as the ordered key/value pairs of the
JavaScript object. -/
abbrev CellMap := List (CellKey × Option Status)

/-- `const adjustedDayOfWeek = dayOfWeek === 0 ? 7 : dayOfWeek`. -/
def adjustedDow (g : Int) : Nat :=
  if jsDow g = 0 then 7 else (jsDow g).toNat

/-- The teacher's non-break periods of the class
(src/server.js:803-812). -/
def teacherPeriodsOnSameDays (db : DB) (tid cid : Nat) : List Period :=
  db.periods.filter (fun p =>
    p.teacher_id == some tid && p.class_id == some cid && !p.is_break)

/-- The seeded cells of one date: one null cell per period scheduled on
that date's weekday, or a single 'general' cell when there are none. -/
def cellsForDay (tps : List Period) (g : Int) : CellMap :=
  let todays := tps.filter (fun p => p.day_of_week == adjustedDow g)
  if todays.isEmpty then [(CellKey.general, none)]
  else todays.map (fun p => (CellKey.period p.id, none))

/-- The attendance grid: the students it was built for, and the cell map
of every (student, date). -/
structure Grid where
  studentIds : List Nat
  cells : Nat → Int → CellMap

/-- Grid seeding (src/server.js:855-875). -/
def buildInitialGrid (db : DB) (tid cid : Nat) (students : List Student)
    (dates : List Int) : Grid :=
  { studentIds := students.map (fun s => s.id),
    cells := fun sid g =>
      if sid ∈ students.map (fun s => s.id) ∧ g ∈ dates then
        cellsForDay (teacherPeriodsOnSameDays db tid cid) g
      else [] }

/-- `obj[key] !== undefined`. -/
def hasKey (m : CellMap) (k : CellKey) : Bool :=
  m.any (fun c => c.1 == k)

/-- JavaScript object assignment `obj[key] = v`: overwrite the key when
present, append it otherwise. -/
def setCell (m : CellMap) (k : CellKey) (v : Option Status) : CellMap :=
  if hasKey m k then m.map (fun c => if c.1 == k then (k, v) else c)
  else m ++ [(k, v)]

/-- Object lookup `obj[key]` (`none` = undefined). -/
def lookupCell (m : CellMap) (k : CellKey) : Option (Option Status) :=
  (m.find? (fun c => c.1 == k)).map (fun c => c.2)

/-- Overlay of one attendance record (src/server.js:880-903): skip
records of unknown students; place the status under the record's period
id when that cell is present, else under 'general'. -/
def overlayRecord (g : Grid) (r : Attendance) : Grid :=
  if r.student_id ∈ g.studentIds then
    let key : CellKey :=
      match r.period_id with
      | some pid =>
        if hasKey (g.cells r.student_id r.date) (CellKey.period pid) then
          CellKey.period pid
        else CellKey.general
      | none => CellKey.general
    { g with cells := fun sid d =>
        if sid = r.student_id ∧ d = r.date then
          setCell (g.cells sid d) key (some r.status)
        else g.cells sid d }
  else g

/-- Overlay of the whole record list. -/
def overlayAll (g : Grid) (rs : List Attendance) : Grid :=
  rs.foldl overlayRecord g

/-! ## Report Aggregator

`GET /teacher/reports/:classId` (src/server.js:1033-1103):

  FROM students s
  LEFT JOIN attendance a ON s.id = a.student_id
  LEFT JOIN timetable_periods tp ON a.period_id = tp.id
  WHERE s.class_id = $1 AND (tp.teacher_id = $2 OR a.id IS NULL)
    [AND (a.id IS NULL OR a.date >= $3)]
  GROUP BY s.id ... ORDER BY s.roll_no

with COUNT(a.id), SUM(status = P), SUM(status = A) and
ROUND(present * 100.0 / NULLIF(COUNT(a.id), 0), 2).
-/

/-- The left-join of one attendance row to its period. -/
def tpLookup (db : DB) (a : Attendance) : Option Period :=
  a.period_id.bind (fun pid => db.periods.find? (fun p => p.id == pid))

/-- `ON s.id = a.student_id`: the attendance records of one student. -/
def studentRecs (db : DB) (s : Student) : List Attendance :=
  db.attendance.filter (fun a => a.student_id == s.id)

/-- The left-join rows of one student: one null-extended row when the
student has no attendance, else one row per attendance record with its
(possibly null) period. -/
def studentJoinRows (db : DB) (s : Student) :
    List (Option Attendance × Option Period) :=
  if (studentRecs db s).isEmpty then [(none, none)]
  else (studentRecs db s).map (fun a => (some a, tpLookup db a))

/-- The WHERE clause on a joined row:
`(tp.teacher_id = $2 OR a.id IS NULL) AND (a.id IS NULL OR a.date >= $3)`
(no date conjunct when `bound` is `none`, the full period). -/
def whereKeeps (tid : Nat) (bound : Option Int)
    (r : Option Attendance × Option Period) : Bool :=
  ((match r.2 with
    | some tp => tp.teacher_id == some tid
    | none => false) || r.1.isNone) &&
  (r.1.isNone ||
    (match r.1, bound with
     | some a, some b => decide (b ≤ a.date)
     | _, _ => true))

/-- One row of the rendered report. -/
structure ReportRow where
  roll_no : Nat
  total_days : Nat
  present_days : Nat
  absent_days : Nat
  percentage : Option Nat
deriving DecidableEq, Repr

/-- `ROUND(p * 100.0 / t, 2)` as an integer number of hundredths of a
percent (numeric rounding, half away from zero; both arguments are
nonnegative here so half-up). -/
def roundHalfUp2 (p t : Nat) : Nat :=
  (2 * (p * 10000) + t) / (2 * t)

/-- `CASE WHEN a.status = 'P' THEN 1 ELSE 0 END` (0 on the null row). -/
def rowIsPresent : Option Attendance × Option Period → Bool
  | (some a, _) => a.status == Status.P
  | (none, _) => false

/-- `CASE WHEN a.status = 'A' THEN 1 ELSE 0 END` (0 on the null row). -/
def rowIsAbsent : Option Attendance × Option Period → Bool
  | (some a, _) => a.status == Status.A
  | (none, _) => false

/-- The joined rows of one student's group that survive the WHERE
clause. -/
def survivingRows (db : DB) (tid : Nat) (bound : Option Int)
    (s : Student) : List (Option Attendance × Option Period) :=
  (studentJoinRows db s).filter (whereKeeps tid bound)

/-- The aggregate of one student's group: no output row when every
joined row is filtered out, else the counts over the surviving rows,
with a null percentage when `COUNT(a.id)` is zero. -/
def reportRowFor (db : DB) (tid : Nat) (bound : Option Int)
    (s : Student) : Option ReportRow :=
  if (survivingRows db tid bound s).isEmpty then none
  else
    some { roll_no := s.roll_no,
           total_days := (survivingRows db tid bound s).countP
             (fun r => r.1.isSome),
           present_days := (survivingRows db tid bound s).countP rowIsPresent,
           absent_days := (survivingRows db tid bound s).countP rowIsAbsent,
           percentage :=
             if (survivingRows db tid bound s).countP (fun r => r.1.isSome) = 0
             then none
             else some (roundHalfUp2
               ((survivingRows db tid bound s).countP rowIsPresent)
               ((survivingRows db tid bound s).countP (fun r => r.1.isSome))) }

/-- Insertion step of the ORDER BY s.roll_no sort. -/
def insertByRoll (s : Student) : List Student → List Student
  | [] => [s]
  | t :: ts =>
    if s.roll_no ≤ t.roll_no then s :: t :: ts else t :: insertByRoll s ts

/-- Stable sort by roll number. -/
def sortByRoll : List Student → List Student
  | [] => []
  | s :: ss => insertByRoll s (sortByRoll ss)

/-- `WHERE s.class_id = $1 ... ORDER BY s.roll_no`. -/
def classStudents (db : DB) (cid : Nat) : List Student :=
  sortByRoll (db.students.filter (fun s => s.class_id == some cid))

/-- The report's `period` query parameter. -/
inductive ReportPeriod where
  | week
  | month
  | full
deriving DecidableEq, Repr

/-- The date lower bound: `now - 7d` for week, `now - 30d` for month,
none for full. -/
def boundFor : ReportPeriod → Int → Option Int
  | .week, today => some (today - 7)
  | .month, today => some (today - 30)
  | .full, _ => none

/-- The whole report: one aggregated row per student group that
survives the WHERE clause, in roll-number order. -/
def buildReport (db : DB) (cid tid : Nat) (rp : ReportPeriod)
    (today : Int) : List ReportRow :=
  (classStudents db cid).filterMap (reportRowFor db tid (boundFor rp today))

/-- Propositional reading of which attendance records a report row
actually counts: the record is attributed to a stored period whose
teacher is the requesting teacher, and its date satisfies the window's
lower bound (`bound.getD a.date ≤ a.date` is vacuous for the full
period and is `b ≤ a.date` for `bound = some b`). -/
def KeepProp (db : DB) (tid : Nat) (bound : Option Int)
    (a : Attendance) : Prop :=
  (∃ p ∈ db.periods, a.period_id = some p.id ∧ p.teacher_id = some tid) ∧
  bound.getD a.date ≤ a.date

instance (db : DB) (tid : Nat) (bound : Option Int) (a : Attendance) :
    Decidable (KeepProp db tid bound a) := by
  unfold KeepProp; infer_instance

/-! ## Concrete sample data for witnesses and counterexamples -/

/-- A period of a different teacher (6) in the same class, Monday
10:00–11:00. -/
def otherTeacherPeriod : Period :=
  { id := 2, class_id := some 1, day_of_week := 1, period_number := 2,
    start_time := 600, end_time := 660, teacher_id := some 6,
    is_break := false }

/-- A student of class 1. -/
def student10 : Student := { id := 10, class_id := some 1, roll_no := 1 }

/-- A record of student 10 attributed to the other teacher's period. -/
def recPeriodOther : Attendance :=
  { id := 1, student_id := 10, class_id := some 1, period_id := some 2,
    date := 100, status := .P, marked_by := some 6 }

/-- A manual (period-less) record of student 10. -/
def recManual : Attendance :=
  { id := 2, student_id := 10, class_id := some 1, period_id := none,
    date := 100, status := .P, marked_by := some 5 }

/-- A record of student 10 attributed to `samplePeriod`. -/
def recSamplePeriod : Attendance :=
  { id := 3, student_id := 10, class_id := some 1, period_id := some 1,
    date := 100, status := .A, marked_by := some 5 }

/-- Database for the bulk-update and cascade witnesses. -/
def cascadeDB : DB :=
  { periods := [samplePeriod, otherTeacherPeriod],
    attendance := [recPeriodOther, recManual, recSamplePeriod],
    students := [student10], nextId := 4 }

/-- The state `deletePeriod` leaves when removing period 1 from
`cascadeDB`. -/
def cascadeDeletedDB : DB :=
  { periods := [otherTeacherPeriod],
    attendance := [recPeriodOther, recManual],
    students := [student10], nextId := 4 }

/-- Database for the report counterexample: teacher 5 is assigned to
class 1, and student 10's only record is manual (no period) and inside
every window. -/
def manualOnlyDB : DB :=
  { periods := [samplePeriod], attendance := [recManual],
    students := [student10], nextId := 3 }

/-- A record of student 10 for Monday day 4, attributed to
`samplePeriod`. -/
def recMonday : Attendance :=
  { id := 4, student_id := 10, class_id := some 1, period_id := some 1,
    date := 4, status := .P, marked_by := some 5 }

/-- The seeded one-student, one-date grid for teacher 5 on Monday
day 4. -/
def mondayGrid : Grid := buildInitialGrid cascadeDB 5 1 [student10] [4]

-- THEOREMS START HERE

theorem minByPeriodNumber_eq_none : ∀ (l : List Period),
    minByPeriodNumber l = none → l = [] := by
  intro l h
  cases l with
  | nil => rfl
  | cons p ps =>
    simp only [minByPeriodNumber] at h
    cases hm : minByPeriodNumber ps with
    | none => rw [hm] at h; cases h
    | some q =>
      rw [hm] at h
      by_cases hle : p.period_number ≤ q.period_number <;> simp [hle] at h

theorem minByPeriodNumber_mem : ∀ (l : List Period) (p : Period),
    minByPeriodNumber l = some p → p ∈ l := by
  intro l
  induction l with
  | nil => intro p h; simp [minByPeriodNumber] at h
  | cons q ps ih =>
    intro p h
    simp only [minByPeriodNumber] at h
    cases hm : minByPeriodNumber ps with
    | none => rw [hm] at h; cases h; exact List.mem_cons_self _ _
    | some r =>
      rw [hm] at h
      by_cases hle : q.period_number ≤ r.period_number
      · simp [hle] at h; cases h; exact List.mem_cons_self _ _
      · simp [hle] at h; cases h; exact List.mem_cons_of_mem _ (ih _ hm)

theorem minByPeriodNumber_min : ∀ (l : List Period) (p : Period),
    minByPeriodNumber l = some p →
    ∀ q ∈ l, p.period_number ≤ q.period_number := by
  intro l
  induction l with
  | nil => intro p h; simp [minByPeriodNumber] at h
  | cons q ps ih =>
    intro p h r hr
    simp only [minByPeriodNumber] at h
    cases hm : minByPeriodNumber ps with
    | none =>
      rw [hm] at h; cases h
      cases hr with
      | head => exact le_refl _
      | tail _ hr' =>
        rw [minByPeriodNumber_eq_none ps hm] at hr'
        cases hr'
    | some m =>
      rw [hm] at h
      by_cases hle : q.period_number ≤ m.period_number
      · simp [hle] at h; cases h
        cases hr with
        | head => exact le_refl _
        | tail _ hr' => exact le_trans hle (ih m hm r hr')
      · simp [hle] at h; cases h
        cases hr with
        | head => exact le_of_not_le hle
        | tail _ hr' => exact ih p hm r hr'

theorem minByPeriodNumber_isSome : ∀ (l : List Period), l ≠ [] →
    (minByPeriodNumber l).isSome := by
  intro l h
  cases l with
  | nil => exact absurd rfl h
  | cons p ps =>
    simp only [minByPeriodNumber]
    cases minByPeriodNumber ps with
    | none => rfl
    | some q => by_cases hle : p.period_number ≤ q.period_number <;> simp [hle]

theorem periodMatches_iff (classId teacherId day time : Nat) (p : Period) :
    periodMatches classId teacherId day time p = true ↔
    MatchesProp classId teacherId day time p := by
  simp [periodMatches, MatchesProp, and_assoc]

theorem upsert_preserves_periods (db : DB) (sid cid pid : Nat) (date : Int)
    (st : Status) (tid : Nat) :
    (upsertAttendance db sid cid pid date st tid).periods = db.periods := by
  unfold upsertAttendance
  split <;> rfl

theorem upsert_preserves_students (db : DB) (sid cid pid : Nat) (date : Int)
    (st : Status) (tid : Nat) :
    (upsertAttendance db sid cid pid date st tid).students = db.students := by
  unfold upsertAttendance
  split <;> rfl

/-- Updating status and marked_by does not change the conflict key. -/
theorem keyMatch_update (sid : Nat) (date : Int) (pid : Nat)
    (a : Attendance) (st : Status) (tid : Nat) :
    keyMatch sid date pid { a with status := st, marked_by := some tid } =
      keyMatch sid date pid a := by
  simp [keyMatch]

theorem upsert_key_fields (db : DB) (sid cid pid : Nat) (date : Int)
    (st : Status) (tid : Nat) :
    ∀ a ∈ (upsertAttendance db sid cid pid date st tid).attendance,
      keyMatch sid date pid a = true →
      a.status = st ∧ a.marked_by = some tid := by
  intro a ha hk
  unfold upsertAttendance at ha
  by_cases hany : db.attendance.any (keyMatch sid date pid)
  · simp only [hany, if_pos] at ha
    simp only [List.mem_map] at ha
    obtain ⟨b, _, hb⟩ := ha
    by_cases hkb : keyMatch sid date pid b = true
    · rw [if_pos hkb] at hb
      rw [← hb]
      exact ⟨rfl, rfl⟩
    · rw [if_neg hkb] at hb
      rw [← hb] at hk
      exact absurd hk hkb
  · simp only [hany, if_neg, Bool.false_eq_true, not_false_iff] at ha
    rcases List.mem_append.mp ha with hmem | hmem
    · exact absurd (List.any_eq_true.mpr ⟨a, hmem, hk⟩) (by simpa using hany)
    · simp only [List.mem_singleton] at hmem
      rw [hmem]
      exact ⟨rfl, rfl⟩

theorem upsert_key_exists (db : DB) (sid cid pid : Nat) (date : Int)
    (st : Status) (tid : Nat) :
    ∃ a ∈ (upsertAttendance db sid cid pid date st tid).attendance,
      keyMatch sid date pid a = true := by
  unfold upsertAttendance
  by_cases hany : db.attendance.any (keyMatch sid date pid)
  · simp only [hany, if_pos]
    obtain ⟨b, hb, hkb⟩ := List.any_eq_true.mp hany
    refine ⟨{ b with status := st, marked_by := some tid },
      List.mem_map.mpr ⟨b, hb, by rw [if_pos hkb]⟩, ?_⟩
    rw [keyMatch_update]
    exact hkb
  · simp only [hany, if_neg, Bool.false_eq_true, not_false_iff]
    exact ⟨_, List.mem_append.mpr (Or.inr (List.mem_singleton.mpr rfl)),
      by simp [keyMatch]⟩

theorem upsert_frame (db : DB) (sid cid pid : Nat) (date : Int)
    (st : Status) (tid : Nat) :
    ∀ a : Attendance, keyMatch sid date pid a = false →
      (a ∈ (upsertAttendance db sid cid pid date st tid).attendance ↔
        a ∈ db.attendance) := by
  intro a hk
  unfold upsertAttendance
  by_cases hany : db.attendance.any (keyMatch sid date pid)
  · simp only [hany, if_pos]
    constructor
    · intro ha
      obtain ⟨b, hb, hab⟩ := List.mem_map.mp ha
      by_cases hkb : keyMatch sid date pid b = true
      · rw [if_pos hkb] at hab
        rw [← hab, keyMatch_update] at hk
        rw [hkb] at hk
        cases hk
      · rw [if_neg hkb] at hab
        rw [← hab]; exact hb
    · intro ha
      refine List.mem_map.mpr ⟨a, ha, ?_⟩
      rw [if_neg (by rw [hk]; exact Bool.false_ne_true)]
  · simp only [hany, if_neg, Bool.false_eq_true, not_false_iff]
    constructor
    · intro ha
      rcases List.mem_append.mp ha with h | h
      · exact h
      · simp only [List.mem_singleton] at h
        rw [h] at hk
        simp [keyMatch] at hk
    · intro ha
      exact List.mem_append.mpr (Or.inl ha)

/-- The matcher only reads the periods table. -/
theorem findCurrentPeriod_congr (db db' : DB) (classId teacherId day time : Nat)
    (h : db'.periods = db.periods) :
    findCurrentPeriod db' classId teacherId day time =
      findCurrentPeriod db classId teacherId day time := by
  unfold findCurrentPeriod
  rw [h]

theorem map_eq_self_of_mem {α : Type} (l : List α) (f : α → α)
    (h : ∀ a ∈ l, f a = a) : l.map f = l := by
  induction l with
  | nil => rfl
  | cons a l ih =>
    simp only [List.map_cons, h a (List.mem_cons_self a l)]
    rw [ih (fun b hb => h b (List.mem_cons_of_mem a hb))]

theorem attendance_update_eta (a : Attendance) (st : Status) (tid : Nat)
    (hs : a.status = st) (hm : a.marked_by = some tid) :
    ({ a with status := st, marked_by := some tid } : Attendance) = a := by
  cases a
  cases hs
  cases hm
  rfl

/-- C3: the Period Matcher returns `p` iff `p` is a stored period of the
given class and teacher whose day equals the instant's weekday, whose
closed time window `[start_time, end_time]` contains the time of day,
and which is not a break — and, among all such periods, `p` has the
lowest period-number.  The uniqueness half of the iff uses the schema
invariant UNIQUE(class_id, day_of_week, period_number). -/
theorem c3_period_matcher (db : DB) (classId teacherId day time : Nat)
    (p : Period) (huniq : PeriodsUnique db) :
    findCurrentPeriod db classId teacherId day time = some p ↔
      (p ∈ db.periods ∧ p.class_id = some classId ∧
       p.teacher_id = some teacherId ∧ p.day_of_week = day ∧
       p.start_time ≤ time ∧ time ≤ p.end_time ∧ p.is_break = false ∧
       ∀ q ∈ db.periods, MatchesProp classId teacherId day time q →
         p.period_number ≤ q.period_number) := by
  constructor
  · intro h
    have hmem := minByPeriodNumber_mem _ _ h
    have hmin := minByPeriodNumber_min _ _ h
    rw [List.mem_filter] at hmem
    have hp := (periodMatches_iff classId teacherId day time p).mp hmem.2
    obtain ⟨h1, h2, h3, h4, h5, h6⟩ := hp
    refine ⟨hmem.1, h1, h2, h3, h4, h5, h6, ?_⟩
    intro q hq hmq
    exact hmin q (List.mem_filter.mpr
      ⟨hq, (periodMatches_iff classId teacherId day time q).mpr hmq⟩)
  · rintro ⟨hmem, h1, h2, h3, h4, h5, h6, hmin⟩
    have hpm : MatchesProp classId teacherId day time p := ⟨h1, h2, h3, h4, h5, h6⟩
    have hfil : p ∈ db.periods.filter (periodMatches classId teacherId day time) :=
      List.mem_filter.mpr ⟨hmem, (periodMatches_iff _ _ _ _ p).mpr hpm⟩
    have hne : db.periods.filter (periodMatches classId teacherId day time) ≠ [] :=
      List.ne_nil_of_mem hfil
    have hsome := minByPeriodNumber_isSome _ hne
    cases hr : minByPeriodNumber
        (db.periods.filter (periodMatches classId teacherId day time)) with
    | none => rw [hr] at hsome; cases hsome
    | some r =>
      have hrmem := minByPeriodNumber_mem _ _ hr
      rw [List.mem_filter] at hrmem
      have hrp := (periodMatches_iff classId teacherId day time r).mp hrmem.2
      have hle₁ : p.period_number ≤ r.period_number := hmin r hrmem.1 hrp
      have hle₂ : r.period_number ≤ p.period_number :=
        minByPeriodNumber_min _ _ hr p hfil
      have hnum : r.period_number = p.period_number := le_antisymm hle₂ hle₁
      have : r = p := by
        apply huniq r hrmem.1 p hmem
        · rw [hrp.1, h1]
        · rw [hrp.2.2.1, h3]
        · exact hnum
      rw [findCurrentPeriod, hr, this]

/-- C3 witness: a concrete database on which the matcher finds the
sample period at Monday 09:30. -/
theorem c3_period_matcher_witness :
    findCurrentPeriod sampleDB 1 5 1 570 = some samplePeriod := by
  have h := c3_period_matcher sampleDB 1 5 1 570 samplePeriod
    (by unfold PeriodsUnique; decide)
  exact h.mpr (by unfold MatchesProp; decide)

/-- C2: mark-attendance resolves the teacher's period from the live
clock (`nowDay`/`nowTime`), independently of the caller-supplied `date`:
when no non-break period of the teacher in the class covers the current
instant the call returns NoActivePeriod and the database is unchanged;
otherwise it reports success for a current period `p` of the teacher and
upserts the record keyed (student, date, p.id) with the given status and
marking teacher, leaving records with any other key untouched. -/
theorem c2_mark_attendance (db : DB) (sid cid : Nat) (st : Status)
    (date : Int) (tid nowDay nowTime : Nat) :
    ((∀ p ∈ db.periods, ¬ MatchesProp cid tid nowDay nowTime p) →
      markAttendance db sid cid st date tid nowDay nowTime =
        (.noActivePeriod, db)) ∧
    (∀ p, findCurrentPeriod db cid tid nowDay nowTime = some p →
      p ∈ db.periods ∧ MatchesProp cid tid nowDay nowTime p ∧
      (markAttendance db sid cid st date tid nowDay nowTime).1 =
        .success p.id ∧
      ((∃ a ∈ (markAttendance db sid cid st date tid nowDay nowTime).2.attendance,
          keyMatch sid date p.id a = true) ∧
       (∀ a ∈ (markAttendance db sid cid st date tid nowDay nowTime).2.attendance,
          keyMatch sid date p.id a = true →
          a.status = st ∧ a.marked_by = some tid) ∧
       (∀ a : Attendance, keyMatch sid date p.id a = false →
          (a ∈ (markAttendance db sid cid st date tid nowDay nowTime).2.attendance ↔
            a ∈ db.attendance)))) := by
  constructor
  · intro hno
    have hfil : db.periods.filter (periodMatches cid tid nowDay nowTime) = [] := by
      rw [List.filter_eq_nil_iff]
      intro p hp
      intro hmp
      exact hno p hp ((periodMatches_iff cid tid nowDay nowTime p).mp hmp)
    unfold markAttendance findCurrentPeriod
    rw [hfil]
    rfl
  · intro p hp
    have hmem := minByPeriodNumber_mem _ _ hp
    rw [List.mem_filter] at hmem
    have hmp := (periodMatches_iff cid tid nowDay nowTime p).mp hmem.2
    have hmark : markAttendance db sid cid st date tid nowDay nowTime =
        (.success p.id, upsertAttendance db sid cid p.id date st tid) := by
      unfold markAttendance
      rw [hp]
    refine ⟨hmem.1, hmp, ?_, ?_, ?_, ?_⟩
    · rw [hmark]
    · rw [hmark]
      exact upsert_key_exists db sid cid p.id date st tid
    · rw [hmark]
      exact upsert_key_fields db sid cid p.id date st tid
    · rw [hmark]
      exact upsert_frame db sid cid p.id date st tid

/-- C2 witness: on the sample database, marking at Monday 11:40 (no
active period) fails and changes nothing; marking at Monday 09:30
succeeds for the sample period. -/
theorem c2_mark_attendance_witness :
    markAttendance sampleDB 10 1 .P 200 5 1 700 = (.noActivePeriod, sampleDB) ∧
    (markAttendance sampleDB 10 1 .P 200 5 1 570).1 = .success 1 := by
  refine ⟨(c2_mark_attendance sampleDB 10 1 .P 200 5 1 700).1 ?_, ?_⟩
  · decide
  · exact ((c2_mark_attendance sampleDB 10 1 .P 200 5 1 570).2 samplePeriod
      (by decide)).2.2.1

/-- C9: idempotence of marking.  If the database satisfies the
uniqueness constraint for the conflict key and a first call succeeds
for period id `pid`, then a second identical call succeeds with the
same period id and leaves the database exactly as the first call left
it, and the resulting state holds exactly one record for
(student, date, pid), carrying the given status. -/
theorem c9_mark_idempotent (db : DB) (sid cid : Nat) (st : Status)
    (date : Int) (tid nowDay nowTime pid : Nat) (db1 : DB)
    (hcount : db.attendance.countP (keyMatch sid date pid) ≤ 1)
    (h : markAttendance db sid cid st date tid nowDay nowTime =
      (.success pid, db1)) :
    markAttendance db1 sid cid st date tid nowDay nowTime =
      (.success pid, db1) ∧
    db1.attendance.countP (keyMatch sid date pid) = 1 ∧
    ∀ a ∈ db1.attendance, keyMatch sid date pid a = true →
      a.status = st := by
  unfold markAttendance at h
  cases hf : findCurrentPeriod db cid tid nowDay nowTime with
  | none => rw [hf] at h; cases h
  | some p =>
    rw [hf] at h
    have hpid : p.id = pid := by
      have := congrArg Prod.fst h
      simpa using this
    have hdb1 : db1 = upsertAttendance db sid cid p.id date st tid := by
      have := congrArg Prod.snd h
      simpa using this.symm
    subst hpid
    have hf1 : findCurrentPeriod db1 cid tid nowDay nowTime = some p := by
      rw [findCurrentPeriod_congr db db1 cid tid nowDay nowTime
        (by rw [hdb1]; exact upsert_preserves_periods db sid cid p.id date st tid)]
      exact hf
    have hkeep : ∀ a ∈ db1.attendance, keyMatch sid date p.id a = true →
        a.status = st ∧ a.marked_by = some tid := by
      rw [hdb1]
      exact upsert_key_fields db sid cid p.id date st tid
    have hexists : ∃ a ∈ db1.attendance, keyMatch sid date p.id a = true := by
      rw [hdb1]
      exact upsert_key_exists db sid cid p.id date st tid
    have hany : db1.attendance.any (keyMatch sid date p.id) = true := by
      obtain ⟨a, ha, hk⟩ := hexists
      exact List.any_eq_true.mpr ⟨a, ha, hk⟩
    have hsecond : upsertAttendance db1 sid cid p.id date st tid = db1 := by
      unfold upsertAttendance
      rw [if_pos hany]
      have : db1.attendance.map (fun a =>
          if keyMatch sid date p.id a then
            { a with status := st, marked_by := some tid }
          else a) = db1.attendance := by
        apply map_eq_self_of_mem
        intro a ha
        by_cases hk : keyMatch sid date p.id a = true
        · rw [if_pos hk]
          obtain ⟨hs, hm⟩ := hkeep a ha hk
          exact attendance_update_eta a st tid hs hm
        · rw [if_neg hk]
      rw [this]
    have hcount1 : db1.attendance.countP (keyMatch sid date p.id) = 1 := by
      rw [hdb1]
      unfold upsertAttendance
      by_cases hany0 : db.attendance.any (keyMatch sid date p.id)
      · rw [if_pos hany0]
        simp only [List.countP_map]
        have heq : db.attendance.countP ((keyMatch sid date p.id) ∘ (fun a =>
            if keyMatch sid date p.id a then
              { a with status := st, marked_by := some tid }
            else a)) = db.attendance.countP (keyMatch sid date p.id) := by
          apply List.countP_congr
          intro a _
          by_cases hk : keyMatch sid date p.id a = true
          · simp [Function.comp, hk, keyMatch_update]
          · simp [Function.comp, hk]
        rw [heq]
        have hpos : 0 < db.attendance.countP (keyMatch sid date p.id) := by
          rw [List.countP_pos_iff]
          obtain ⟨a, ha, hk⟩ := List.any_eq_true.mp hany0
          exact ⟨a, ha, hk⟩
        omega
      · rw [if_neg hany0]
        simp only [List.countP_append]
        have hzero : db.attendance.countP (keyMatch sid date p.id) = 0 := by
          rw [List.countP_eq_zero]
          intro a ha hk
          exact hany0 (List.any_eq_true.mpr ⟨a, ha, hk⟩)
        rw [hzero]
        simp [List.countP, List.countP.go, keyMatch]
    refine ⟨?_, hcount1, fun a ha hk => (hkeep a ha hk).1⟩
    unfold markAttendance
    rw [hf1]
    show (MarkResult.success p.id, upsertAttendance db1 sid cid p.id date st tid) =
      (MarkResult.success p.id, db1)
    rw [hsecond]

/-- C9 witness: marking the sample student twice at Monday 09:30 leaves
one record with the given key. -/
theorem c9_mark_idempotent_witness :
    (markAttendance sampleDB 10 1 .P 200 5 1 570).2.attendance.countP
      (keyMatch 10 200 1) = 1 := by
  have h := c9_mark_idempotent sampleDB 10 1 .P 200 5 1 570 1
    (markAttendance sampleDB 10 1 .P 200 5 1 570).2 (by decide) rfl
  exact h.2.1

/-- Helper: a produced report row's total_days counts exactly the
student's attendance records that survive the WHERE clause. -/
theorem survivingRows_of_recs (db : DB) (tid : Nat) (bound : Option Int)
    (s : Student) (hne : ¬(studentRecs db s).isEmpty = true) :
    survivingRows db tid bound s =
      ((studentRecs db s).filter
        (fun a => whereKeeps tid bound (some a, tpLookup db a))).map
        (fun a => (some a, tpLookup db a)) := by
  unfold survivingRows studentJoinRows
  rw [if_neg hne, List.filter_map]
  rfl

theorem reportRowFor_total (db : DB) (tid : Nat) (bound : Option Int)
    (s : Student) (r : ReportRow)
    (h : reportRowFor db tid bound s = some r) :
    r.total_days =
      (((db.attendance.filter (fun a => a.student_id == s.id)).filter
        (fun a => whereKeeps tid bound (some a, tpLookup db a)))).length := by
  unfold reportRowFor at h
  by_cases hrecs : (studentRecs db s).isEmpty
  · have hrows : survivingRows db tid bound s = [(none, none)] := by
      unfold survivingRows studentJoinRows
      rw [if_pos hrecs]
      rfl
    rw [hrows] at h
    simp only [List.isEmpty_cons, if_neg, Bool.false_eq_true,
      not_false_iff] at h
    cases h
    rw [List.isEmpty_iff] at hrecs
    have hfil : db.attendance.filter (fun a => a.student_id == s.id) = [] :=
      hrecs
    simp [hfil, List.countP_cons]
  · rw [survivingRows_of_recs db tid bound s hrecs] at h
    by_cases hle : (((studentRecs db s).filter
        (fun a => whereKeeps tid bound (some a, tpLookup db a))).map
        (fun a => ((some a : Option Attendance), tpLookup db a))).isEmpty
    · rw [if_pos hle] at h
      cases h
    · rw [if_neg hle] at h
      cases h
      show (((studentRecs db s).filter
          (fun a => whereKeeps tid bound (some a, tpLookup db a))).map
          (fun a => ((some a : Option Attendance), tpLookup db a))).countP
          (fun r => r.1.isSome) = _
      rw [List.countP_map]
      have : ((fun (r : Option Attendance × Option Period) => r.1.isSome) ∘
          (fun a => ((some a : Option Attendance), tpLookup db a))) =
          (fun _ => true) := rfl
      rw [this]
      simp [studentRecs]

/-- C10: deleting a timetable period removes that period, removes every
attendance record referencing it and no other record, and leaves
students and the id sequence unchanged; deleting an absent period id
fails (404) and changes nothing. -/
theorem c10_cascade_delete (db : DB) (periodId : Nat) :
    (∀ db', deletePeriod db periodId = some db' →
      (∀ a : Attendance, a ∈ db'.attendance ↔
        (a ∈ db.attendance ∧ a.period_id ≠ some periodId)) ∧
      (∀ p : Period, p ∈ db'.periods ↔ (p ∈ db.periods ∧ p.id ≠ periodId)) ∧
      db'.students = db.students ∧ db'.nextId = db.nextId) ∧
    (deletePeriod db periodId = none ↔ ∀ p ∈ db.periods, p.id ≠ periodId) := by
  constructor
  · intro db' h
    unfold deletePeriod at h
    by_cases hany : db.periods.any (fun p => p.id == periodId)
    · rw [if_pos hany] at h
      cases h
      refine ⟨?_, ?_, rfl, rfl⟩
      · intro a
        simp [List.mem_filter]
      · intro p
        simp [List.mem_filter]
    · rw [if_neg hany] at h
      cases h
  · unfold deletePeriod
    by_cases hany : db.periods.any (fun p => p.id == periodId)
    · rw [if_pos hany]
      refine iff_of_false (by simp) ?_
      obtain ⟨p, hp, hpe⟩ := List.any_eq_true.mp hany
      intro hall
      exact hall p hp (by simpa using hpe)
    · rw [if_neg hany]
      refine iff_of_true rfl ?_
      intro p hp he
      exact hany (List.any_eq_true.mpr ⟨p, hp, by simpa using he⟩)

/-- C10 witness: deleting period 1 from the concrete database keeps the
other teacher's record and the manual record, and drops the record
attributed to period 1. -/
theorem c10_cascade_delete_witness :
    (recSamplePeriod ∈ cascadeDeletedDB.attendance ↔
      (recSamplePeriod ∈ cascadeDB.attendance ∧
        recSamplePeriod.period_id ≠ some 1)) ∧
    (recManual ∈ cascadeDeletedDB.attendance ↔
      (recManual ∈ cascadeDB.attendance ∧ recManual.period_id ≠ some 1)) := by
  have h := (c10_cascade_delete cascadeDB 1).1 cascadeDeletedDB (by decide)
  exact ⟨h.1 recSamplePeriod, h.1 recManual⟩

/-- C5: both destructive branches of the bulk historical edit act on
every attendance record of the (student, date) pair, whatever its
period attribution — records tied to other teachers' periods included —
and on no other record.  The row condition never mentions `period_id`,
so the delete branch removes all records of the pair, and the update
branch rewrites the status of all of them while keeping their period
attribution, and leaves all other records as they are. -/
theorem c5_bulk_frame (db : DB) (tid : Nat) (c : Change) :
    (c.status = none →
      ∀ a : Attendance, a ∈ (applyChange tid db c).attendance ↔
        (a ∈ db.attendance ∧
         ¬(a.student_id = c.studentId ∧ a.date = c.date))) ∧
    (∀ st, c.status = some st → db.attendance.any (bulkKey c) = true →
      (∀ a ∈ db.attendance, a.student_id = c.studentId → a.date = c.date →
        ({ a with status := st } : Attendance) ∈
          (applyChange tid db c).attendance) ∧
      (∀ a ∈ db.attendance, ¬(a.student_id = c.studentId ∧ a.date = c.date) →
        a ∈ (applyChange tid db c).attendance)) := by
  constructor
  · intro hnone a
    unfold applyChange
    rw [hnone]
    simp [List.mem_filter, bulkKey, not_and]
    tauto
  · intro st hst hany
    unfold applyChange
    rw [hst]
    simp only [hany, if_pos]
    constructor
    · intro a ha hsid hdate
      refine List.mem_map.mpr ⟨a, ha, ?_⟩
      rw [if_pos (by simp [bulkKey, hsid, hdate])]
    · intro a ha hne
      refine List.mem_map.mpr ⟨a, ha, ?_⟩
      rw [if_neg ?_]
      simp only [bulkKey, Bool.and_eq_true, beq_iff_eq]
      intro hcon
      exact hne ⟨hcon.1, hcon.2⟩

/-- C5 witness: deleting (student 10, date 100) removes the record
attributed to teacher 6's period even though the caller is teacher 5. -/
theorem c5_bulk_frame_witness :
    ¬(recPeriodOther ∈
      (applyChange 5 cascadeDB ⟨10, 100, none⟩).attendance) := by
  intro hmem
  have h := ((c5_bulk_frame cascadeDB 5 ⟨10, 100, none⟩).1 rfl
    recPeriodOther).mp hmem
  exact h.2 (by constructor <;> rfl)

/-- C4: per bulk-update entry — empty status deletes every attendance
row of the (student, date) pair, so none remains and any later report
row's totalDays counts only surviving records; non-empty status updates
the status of the existing rows of the pair when there are any, and
otherwise inserts exactly one new row with no period and no class
attribution, marked by the caller. -/
theorem c4_bulk_update (db : DB) (tid : Nat) (c : Change) :
    (c.status = none →
      (applyChange tid db c).attendance =
        db.attendance.filter (fun a => !(bulkKey c a)) ∧
      (∀ a ∈ (applyChange tid db c).attendance, bulkKey c a = false) ∧
      (∀ tid2 bnd s r, reportRowFor (applyChange tid db c) tid2 bnd s = some r →
        r.total_days =
          ((((applyChange tid db c).attendance.filter
              (fun a => a.student_id == s.id)).filter
            (fun a => whereKeeps tid2 bnd
              (some a, tpLookup (applyChange tid db c) a)))).length)) ∧
    (∀ st, c.status = some st →
      (db.attendance.any (bulkKey c) = true →
        (applyChange tid db c).attendance =
          db.attendance.map (fun a =>
            if bulkKey c a then { a with status := st } else a)) ∧
      (db.attendance.any (bulkKey c) = false →
        (applyChange tid db c).attendance = db.attendance ++
          [{ id := db.nextId, student_id := c.studentId, class_id := none,
             period_id := none, date := c.date, status := st,
             marked_by := some tid }])) := by
  constructor
  · intro hnone
    refine ⟨?_, ?_, ?_⟩
    · unfold applyChange
      rw [hnone]
    · intro a ha
      unfold applyChange at ha
      rw [hnone] at ha
      have := (List.mem_filter.mp ha).2
      simpa using this
    · intro tid2 bnd s r hr
      exact reportRowFor_total _ tid2 bnd s r hr
  · intro st hst
    constructor
    · intro hany
      simp only [applyChange, hst, hany, if_pos]
    · intro hany
      simp only [applyChange, hst, hany, Bool.false_eq_true, if_neg,
        not_false_iff]

/-- C4 witness: the delete branch empties the pair, the insert branch
creates the expected period-less row. -/
theorem c4_bulk_update_witness :
    (∀ a ∈ (applyChange 5 cascadeDB ⟨10, 100, none⟩).attendance,
      bulkKey ⟨10, 100, none⟩ a = false) ∧
    (applyChange 5 manualOnlyDB ⟨10, 200, some .A⟩).attendance =
      manualOnlyDB.attendance ++
        [{ id := 3, student_id := 10, class_id := none, period_id := none,
           date := 200, status := .A, marked_by := some 5 }] := by
  constructor
  · exact ((c4_bulk_update cascadeDB 5 ⟨10, 100, none⟩).1 rfl).2.1
  · exact (((c4_bulk_update manualOnlyDB 5 ⟨10, 200, some .A⟩).2 .A rfl).2
      (by decide))

/-- Each month's first day is one month-length after the previous
month's first day. -/
theorem civilToDay_next_month (y m : Nat) (hy : 1 ≤ y) (hm1 : 1 ≤ m)
    (hm2 : m ≤ 12) :
    civilToDay (nextMonth y m).1 (nextMonth y m).2 1 =
      civilToDay y m 1 + gregDaysInMonth y m := by
  interval_cases m <;>
    (unfold nextMonth civilToDay gregDaysInMonth isLeap
     norm_num
     try omega
     try (split <;> omega))

/-- Within one month, the day number is linear in the day of month. -/
theorem civilToDay_linear (y m d : Nat) (hd : 1 ≤ d) :
    civilToDay y m d = civilToDay y m 1 + ((d : Int) - 1) := by
  unfold civilToDay
  split <;> omega

theorem gregDaysInMonth_pos (y m : Nat) : 1 ≤ gregDaysInMonth y m := by
  unfold gregDaysInMonth
  split
  · split <;> omega
  · split <;> omega

/-- C6: the history windows.  Week view: the window starts on a Monday
(`getDay = 1`), ends six days later on a Sunday (`getDay = 0`),
contains the reference date, a Sunday reference date starts six days
earlier, and the seven enumerated dates are exactly the span in order.
Month view: the window runs from the first day of the reference month
to its last calendar day, and the enumerated dates are exactly days
1 … monthLength of that month in order. -/
theorem c6_history_windows (g : Int) (y m : Nat) (hy : 1 ≤ y)
    (hm1 : 1 ≤ m) (hm2 : m ≤ 12) :
    (jsDow (weekStart g) = 1 ∧ weekStart g ≤ g ∧ g ≤ weekStart g + 6 ∧
     jsDow (weekStart g + 6) = 0 ∧ (jsDow g = 0 → weekStart g = g - 6) ∧
     weekDates g = [weekStart g, weekStart g + 1, weekStart g + 2,
       weekStart g + 3, weekStart g + 4, weekStart g + 5,
       weekStart g + 6]) ∧
    ((monthWindow y m).1 = civilToDay y m 1 ∧
     (monthWindow y m).2.1 = civilToDay y m (gregDaysInMonth y m) ∧
     (monthWindow y m).2.2 = (List.range (gregDaysInMonth y m)).map
       (fun i => civilToDay y m (i + 1))) := by
  have hnext := civilToDay_next_month y m hy hm1 hm2
  have hpos := gregDaysInMonth_pos y m
  refine ⟨⟨?_, ?_, ?_, ?_, ?_, ?_⟩, rfl, ?_, ?_⟩
  · simp only [weekStart, jsDow]
    split <;> omega
  · simp only [weekStart, jsDow]
    split <;> omega
  · simp only [weekStart, jsDow]
    split <;> omega
  · simp only [weekStart, jsDow]
    split <;> omega
  · intro h0
    unfold weekStart
    rw [if_pos h0]
    ring
  · unfold weekDates
    simp [List.range_succ]
  · show civilToDay (nextMonth y m).1 (nextMonth y m).2 1 - 1 = _
    rw [hnext, civilToDay_linear y m (gregDaysInMonth y m) hpos]
    ring
  · show (List.range (civilToDay (nextMonth y m).1 (nextMonth y m).2 1 - 1 -
        civilToDay y m 1 + 1).toNat).map
      (fun i : Nat => civilToDay y m 1 + (i : Int)) = _
    have hn : (civilToDay (nextMonth y m).1 (nextMonth y m).2 1 - 1 -
        civilToDay y m 1 + 1).toNat = gregDaysInMonth y m := by
      rw [hnext]
      omega
    rw [hn]
    apply List.map_congr_left
    intro i hi
    rw [civilToDay_linear y m (i + 1) (by omega)]
    push_cast
    ring

/-- C6 witness: the week of Sunday 2024-03-03 (day 19785) starts on
Monday 2024-02-26 (day 19779), and February 2024 spans 29 enumerated
days starting at 2024-02-01. -/
theorem c6_history_windows_witness :
    weekStart 19785 = 19779 ∧
    (monthWindow 2024 2).2.2 = (List.range 29).map
      (fun i => civilToDay 2024 2 (i + 1)) := by
  have h := c6_history_windows 19785 2024 2 (by decide) (by decide) (by decide)
  refine ⟨h.1.2.2.2.2.1 (by decide), ?_⟩
  have h2 := h.2.2.2
  rw [show gregDaysInMonth 2024 2 = 29 from by decide] at h2
  exact h2

/-! ### Cell-map lemmas (JavaScript object semantics) -/

theorem setCellFun_pred (k k' : CellKey) (v : Option Status)
    (c : CellKey × Option Status) :
    ((if c.1 == k then (k, v) else c).1 == k') = (c.1 == k') := by
  by_cases hc : c.1 = k
  · simp [hc]
  · simp [hc]

theorem lookupCell_setCell_self (m : CellMap) (k : CellKey)
    (v : Option Status) :
    lookupCell (setCell m k v) k = some v := by
  unfold setCell
  by_cases h : hasKey m k
  · rw [if_pos h]
    unfold lookupCell
    rw [List.find?_map]
    have hpe : ((fun c : CellKey × Option Status => c.1 == k) ∘
        (fun c : CellKey × Option Status => if c.1 == k then (k, v) else c)) =
        (fun c : CellKey × Option Status => c.1 == k) := by
      funext c
      exact setCellFun_pred k k v c
    rw [hpe]
    unfold hasKey at h
    obtain ⟨c, hc, hck⟩ := List.any_eq_true.mp h
    cases hf : List.find? (fun c => c.1 == k) m with
    | none =>
      rw [List.find?_eq_none] at hf
      exact absurd hck (by simpa using hf c hc)
    | some c0 =>
      have hc0 := List.find?_some hf
      simp only [Option.map_some']
      rw [if_pos hc0]
  · rw [if_neg h]
    unfold lookupCell
    rw [List.find?_append]
    have hnone : List.find? (fun c => c.1 == k) m = none := by
      rw [List.find?_eq_none]
      intro x hx hpx
      exact h (List.any_eq_true.mpr ⟨x, hx, hpx⟩)
    rw [hnone]
    simp [List.find?]

theorem lookupCell_setCell_other (m : CellMap) (k k' : CellKey)
    (v : Option Status) (hne : k' ≠ k) :
    lookupCell (setCell m k v) k' = lookupCell m k' := by
  unfold setCell
  by_cases h : hasKey m k
  · rw [if_pos h]
    unfold lookupCell
    rw [List.find?_map]
    have hpe : ((fun c : CellKey × Option Status => c.1 == k') ∘
        (fun c : CellKey × Option Status => if c.1 == k then (k, v) else c)) =
        (fun c : CellKey × Option Status => c.1 == k') := by
      funext c
      exact setCellFun_pred k k' v c
    rw [hpe]
    cases hf : List.find? (fun c => c.1 == k') m with
    | none => rfl
    | some c0 =>
      have hc0 := List.find?_some hf
      have hc0k : c0.1 = k' := by simpa using hc0
      simp only [Option.map_some']
      rw [if_neg]
      rw [hc0k]
      simp
      exact fun hkk => hne hkk
  · rw [if_neg h]
    unfold lookupCell
    rw [List.find?_append]
    cases hf : List.find? (fun c => c.1 == k') m with
    | none =>
      have hkk : (k == k') = false := by
        simp
        exact fun hkk => hne hkk.symm
      simp [List.find?, hkk]
    | some c0 => rfl

theorem hasKey_setCell (m : CellMap) (k k' : CellKey) (v : Option Status)
    (hk : k = CellKey.general ∨ hasKey m k = true)
    (hp : ∃ pid, k' = CellKey.period pid) :
    hasKey (setCell m k v) k' = hasKey m k' := by
  unfold setCell
  by_cases h : hasKey m k
  · rw [if_pos h]
    unfold hasKey
    rw [List.any_map]
    congr 1
    funext c
    exact setCellFun_pred k k' v c
  · rw [if_neg h]
    rcases hk with hk | hk
    · obtain ⟨pid, hpid⟩ := hp
      unfold hasKey
      rw [List.any_append]
      subst hpid hk
      simp [List.any_cons]
    · exact absurd hk h

/-! ### Seeded-grid lemmas -/

theorem cellsForDay_mem_period (tps : List Period) (g : Int) (pid : Nat) :
    (∃ v, (CellKey.period pid, v) ∈ cellsForDay tps g) ↔
      ∃ p ∈ tps, p.day_of_week = adjustedDow g ∧ p.id = pid := by
  unfold cellsForDay
  by_cases he : (tps.filter (fun p => p.day_of_week == adjustedDow g)).isEmpty
  · rw [if_pos he]
    rw [List.isEmpty_iff] at he
    constructor
    · rintro ⟨v, hv⟩
      simp at hv
    · rintro ⟨p, hp, hd, _⟩
      have : p ∈ tps.filter (fun p => p.day_of_week == adjustedDow g) :=
        List.mem_filter.mpr ⟨hp, by simpa using hd⟩
      rw [he] at this
      cases this
  · rw [if_neg he]
    constructor
    · rintro ⟨v, hv⟩
      obtain ⟨p, hp, hpe⟩ := List.mem_map.mp hv
      obtain ⟨hp1, hp2⟩ := List.mem_filter.mp hp
      refine ⟨p, hp1, by simpa using hp2, ?_⟩
      have := congrArg Prod.fst hpe
      simpa using this
    · rintro ⟨p, hp, hd, hid⟩
      refine ⟨none, List.mem_map.mpr ⟨p, ?_, by rw [hid]⟩⟩
      exact List.mem_filter.mpr ⟨hp, by simpa using hd⟩

theorem cellsForDay_vals (tps : List Period) (g : Int) :
    ∀ k v, (k, v) ∈ cellsForDay tps g → v = none := by
  intro k v hv
  unfold cellsForDay at hv
  by_cases he : (tps.filter (fun p => p.day_of_week == adjustedDow g)).isEmpty
  · rw [if_pos he] at hv
    simp at hv
    exact hv.2
  · rw [if_neg he] at hv
    obtain ⟨p, _, hpe⟩ := List.mem_map.mp hv
    have := congrArg Prod.snd hpe
    simpa using this.symm

theorem cellsForDay_general (tps : List Period) (g : Int)
    (h : ∀ p ∈ tps, p.day_of_week ≠ adjustedDow g) :
    cellsForDay tps g = [(CellKey.general, none)] := by
  unfold cellsForDay
  rw [if_pos]
  rw [List.isEmpty_iff, List.filter_eq_nil_iff]
  intro p hp
  simpa using h p hp

theorem cellsForDay_no_general (tps : List Period) (g : Int)
    (h : ∃ p ∈ tps, p.day_of_week = adjustedDow g) :
    ¬ ∃ v, (CellKey.general, v) ∈ cellsForDay tps g := by
  rintro ⟨v, hv⟩
  unfold cellsForDay at hv
  obtain ⟨p, hp, hd⟩ := h
  rw [if_neg] at hv
  · obtain ⟨q, _, hqe⟩ := List.mem_map.mp hv
    have := congrArg Prod.fst hqe
    simp at this
  · rw [List.isEmpty_iff]
    intro hnil
    have : p ∈ tps.filter (fun p => p.day_of_week == adjustedDow g) :=
      List.mem_filter.mpr ⟨hp, by simpa using hd⟩
    rw [hnil] at this
    cases this

theorem cellsForDay_countP (tps : List Period) (g : Int) (pid : Nat) :
    (cellsForDay tps g).countP (fun c => c.1 == CellKey.period pid) =
      tps.countP (fun p => p.id == pid && p.day_of_week == adjustedDow g) := by
  unfold cellsForDay
  by_cases he : (tps.filter (fun p => p.day_of_week == adjustedDow g)).isEmpty
  · rw [if_pos he]
    rw [List.isEmpty_iff] at he
    have hz : tps.countP
        (fun p => p.id == pid && p.day_of_week == adjustedDow g) = 0 := by
      rw [List.countP_eq_zero]
      intro p hp hc
      simp only [Bool.and_eq_true, beq_iff_eq] at hc
      have : p ∈ tps.filter (fun p => p.day_of_week == adjustedDow g) :=
        List.mem_filter.mpr ⟨hp, by simpa using hc.2⟩
      rw [he] at this
      cases this
    rw [hz]
    rfl
  · rw [if_neg he]
    rw [List.countP_map]
    have hpe : ((fun c : CellKey × Option Status => c.1 == CellKey.period pid) ∘
        (fun p : Period => (CellKey.period p.id, (none : Option Status)))) =
        (fun p : Period => p.id == pid) := by
      funext p
      by_cases hp : p.id = pid
      · simp [hp]
      · simp [hp]
    rw [hpe]
    rw [List.countP_filter]

/-- C7: for every student of the grid and every window date, the seeded
grid holds, for that student and date, exactly one unset cell per
non-break period of the requesting teacher in the class scheduled on
that date's weekday; the 'general' fallback cell is present exactly
when there is no such period, and then it is the only cell. -/
theorem c7_grid_seed (db : DB) (tid cid : Nat) (students : List Student)
    (dates : List Int) (s : Student) (g : Int)
    (hs : s ∈ students) (hg : g ∈ dates) :
    (buildInitialGrid db tid cid students dates).cells s.id g =
      cellsForDay (teacherPeriodsOnSameDays db tid cid) g ∧
    (∀ pid, (∃ v, (CellKey.period pid, v) ∈
        (buildInitialGrid db tid cid students dates).cells s.id g) ↔
      (∃ p ∈ db.periods, p.id = pid ∧ p.teacher_id = some tid ∧
        p.class_id = some cid ∧ p.is_break = false ∧
        p.day_of_week = adjustedDow g)) ∧
    (∀ k v, (k, v) ∈ (buildInitialGrid db tid cid students dates).cells s.id g →
      v = none) ∧
    ((¬ ∃ p ∈ db.periods, p.teacher_id = some tid ∧ p.class_id = some cid ∧
        p.is_break = false ∧ p.day_of_week = adjustedDow g) →
      (buildInitialGrid db tid cid students dates).cells s.id g =
        [(CellKey.general, none)]) ∧
    ((∃ p ∈ db.periods, p.teacher_id = some tid ∧ p.class_id = some cid ∧
        p.is_break = false ∧ p.day_of_week = adjustedDow g) →
      ¬ ∃ v, (CellKey.general, v) ∈
        (buildInitialGrid db tid cid students dates).cells s.id g) ∧
    (∀ pid, ((buildInitialGrid db tid cid students dates).cells s.id g).countP
        (fun c => c.1 == CellKey.period pid) =
      db.periods.countP (fun p => p.id == pid && p.teacher_id == some tid &&
        p.class_id == some cid && !p.is_break &&
        p.day_of_week == adjustedDow g)) := by
  have hcells : (buildInitialGrid db tid cid students dates).cells s.id g =
      cellsForDay (teacherPeriodsOnSameDays db tid cid) g := by
    unfold buildInitialGrid
    exact if_pos ⟨List.mem_map.mpr ⟨s, hs, rfl⟩, hg⟩
  have hmemt : ∀ p : Period, p ∈ teacherPeriodsOnSameDays db tid cid ↔
      (p ∈ db.periods ∧ p.teacher_id = some tid ∧ p.class_id = some cid ∧
       p.is_break = false) := by
    intro p
    unfold teacherPeriodsOnSameDays
    rw [List.mem_filter]
    constructor
    · rintro ⟨h1, h2⟩
      simp only [Bool.and_eq_true, beq_iff_eq, Bool.not_eq_true'] at h2
      exact ⟨h1, h2.1.1, h2.1.2, h2.2⟩
    · rintro ⟨h1, h2, h3, h4⟩
      refine ⟨h1, ?_⟩
      simp only [Bool.and_eq_true, beq_iff_eq, Bool.not_eq_true']
      exact ⟨⟨h2, h3⟩, h4⟩
  refine ⟨hcells, ?_, ?_, ?_, ?_, ?_⟩
  · intro pid
    rw [hcells, cellsForDay_mem_period]
    constructor
    · rintro ⟨p, hp, hd, hid⟩
      obtain ⟨h1, h2, h3, h4⟩ := (hmemt p).mp hp
      exact ⟨p, h1, hid, h2, h3, h4, hd⟩
    · rintro ⟨p, hp, hid, h2, h3, h4, hd⟩
      exact ⟨p, (hmemt p).mpr ⟨hp, h2, h3, h4⟩, hd, hid⟩
  · rw [hcells]
    exact cellsForDay_vals _ g
  · intro hno
    rw [hcells]
    apply cellsForDay_general
    intro p hp hd
    obtain ⟨h1, h2, h3, h4⟩ := (hmemt p).mp hp
    exact hno ⟨p, h1, h2, h3, h4, hd⟩
  · rintro ⟨p, hp, h2, h3, h4, hd⟩
    rw [hcells]
    exact cellsForDay_no_general _ g ⟨p, (hmemt p).mpr ⟨hp, h2, h3, h4⟩, hd⟩
  · intro pid
    rw [hcells, cellsForDay_countP]
    unfold teacherPeriodsOnSameDays
    rw [List.countP_filter]
    apply List.countP_congr
    intro p _
    constructor
    · intro h
      simp only [Bool.and_eq_true, beq_iff_eq, Bool.not_eq_true'] at h ⊢
      tauto
    · intro h
      simp only [Bool.and_eq_true, beq_iff_eq, Bool.not_eq_true'] at h ⊢
      tauto

/-- C7 witness: on Monday day 4 the concrete seeded grid has a cell for
`samplePeriod` and no 'general' cell; no period of teacher 5 falls on
Saturday day 2, so that date would seed only the fallback. -/
theorem c7_grid_seed_witness :
    (∃ v, (CellKey.period 1, v) ∈ mondayGrid.cells 10 4) ∧
    ¬ (∃ v, (CellKey.general, v) ∈ mondayGrid.cells 10 4) := by
  have h := c7_grid_seed cascadeDB 5 1 [student10] [4] student10 4
    (by decide) (by decide)
  constructor
  · exact (h.2.1 1).mpr ⟨samplePeriod, by decide, by decide, by decide,
      by decide, by decide, by decide⟩
  · exact h.2.2.2.2.1 ⟨samplePeriod, by decide, by decide, by decide,
      by decide, by decide⟩

/-- One overlay step changes no cell map other than the record's
(student, date). -/
theorem overlayRecord_frame (g : Grid) (r : Attendance) (sid : Nat)
    (d : Int) (h : ¬(sid = r.student_id ∧ d = r.date)) :
    (overlayRecord g r).cells sid d = g.cells sid d := by
  unfold overlayRecord
  by_cases hmem : r.student_id ∈ g.studentIds
  · rw [if_pos hmem]
    exact if_neg h
  · rw [if_neg hmem]

/-- The cell map an overlay step writes at the record's
(student, date). -/
theorem overlayRecord_cells (g : Grid) (r : Attendance)
    (hmem : r.student_id ∈ g.studentIds) :
    (overlayRecord g r).cells r.student_id r.date =
      setCell (g.cells r.student_id r.date)
        (match r.period_id with
         | some pid =>
           if hasKey (g.cells r.student_id r.date) (CellKey.period pid) then
             CellKey.period pid
           else CellKey.general
         | none => CellKey.general)
        (some r.status) := by
  unfold overlayRecord
  rw [if_pos hmem]
  exact if_pos ⟨rfl, rfl⟩

/-- Overlay steps never create or destroy period-keyed cells, so the
period cells of any intermediate grid are those of the seeded grid. -/
theorem overlayRecord_periodKey (g : Grid) (r : Attendance) (sid : Nat)
    (d : Int) (pid : Nat) :
    hasKey ((overlayRecord g r).cells sid d) (CellKey.period pid) =
      hasKey (g.cells sid d) (CellKey.period pid) := by
  by_cases hmem : r.student_id ∈ g.studentIds
  · by_cases hsd : sid = r.student_id ∧ d = r.date
    · obtain ⟨hsd1, hsd2⟩ := hsd
      subst hsd1 hsd2
      rw [overlayRecord_cells g r hmem]
      apply hasKey_setCell
      · cases hpi : r.period_id with
        | none => exact Or.inl rfl
        | some pid' =>
          dsimp only
          by_cases hk : hasKey (g.cells r.student_id r.date)
            (CellKey.period pid')
          · rw [if_pos hk]
            exact Or.inr hk
          · rw [if_neg hk]
            exact Or.inl rfl
      · exact ⟨pid, rfl⟩
    · rw [overlayRecord_frame g r sid d hsd]
  · unfold overlayRecord
    rw [if_neg hmem]

theorem overlayAll_periodKey (g : Grid) (rs : List Attendance) (sid : Nat)
    (d : Int) (pid : Nat) :
    hasKey ((overlayAll g rs).cells sid d) (CellKey.period pid) =
      hasKey (g.cells sid d) (CellKey.period pid) := by
  induction rs generalizing g with
  | nil => rfl
  | cons r rs ih =>
    show hasKey ((overlayAll (overlayRecord g r) rs).cells sid d) _ = _
    rw [ih (overlayRecord g r), overlayRecord_periodKey]

/-- C8: overlaying a record of a grid student writes its status into
the cell keyed by the record's period id when that cell exists in the
grid (and overlay steps neither add nor remove period-keyed cells, so
existence in the current grid is existence in the seeded grid);
otherwise, and always for a period-less record, the status goes into
the 'general' cell of that date.  In each case every other key of that
cell map and every other (student, date) cell map are unchanged. -/
theorem c8_overlay_records (g : Grid) (r : Attendance)
    (hmem : r.student_id ∈ g.studentIds) :
    (∀ pid, r.period_id = some pid →
      hasKey (g.cells r.student_id r.date) (CellKey.period pid) = true →
      (lookupCell ((overlayRecord g r).cells r.student_id r.date)
          (CellKey.period pid) = some (some r.status) ∧
       ∀ k, k ≠ CellKey.period pid →
         lookupCell ((overlayRecord g r).cells r.student_id r.date) k =
           lookupCell (g.cells r.student_id r.date) k)) ∧
    (∀ pid, r.period_id = some pid →
      hasKey (g.cells r.student_id r.date) (CellKey.period pid) = false →
      (lookupCell ((overlayRecord g r).cells r.student_id r.date)
          CellKey.general = some (some r.status) ∧
       ∀ k, k ≠ CellKey.general →
         lookupCell ((overlayRecord g r).cells r.student_id r.date) k =
           lookupCell (g.cells r.student_id r.date) k)) ∧
    (r.period_id = none →
      (lookupCell ((overlayRecord g r).cells r.student_id r.date)
          CellKey.general = some (some r.status) ∧
       ∀ k, k ≠ CellKey.general →
         lookupCell ((overlayRecord g r).cells r.student_id r.date) k =
           lookupCell (g.cells r.student_id r.date) k)) ∧
    (∀ sid d, ¬(sid = r.student_id ∧ d = r.date) →
      (overlayRecord g r).cells sid d = g.cells sid d) ∧
    (∀ rs sid d pid,
      hasKey ((overlayAll g rs).cells sid d) (CellKey.period pid) =
        hasKey (g.cells sid d) (CellKey.period pid)) := by
  have htarget : ∀ pid, r.period_id = some pid →
      (overlayRecord g r).cells r.student_id r.date =
        setCell (g.cells r.student_id r.date)
          (if hasKey (g.cells r.student_id r.date) (CellKey.period pid) then
            CellKey.period pid
           else CellKey.general)
          (some r.status) := by
    intro pid hpi
    rw [overlayRecord_cells g r hmem, hpi]
  refine ⟨?_, ?_, ?_, overlayRecord_frame g r, ?_⟩
  · intro pid hpi hk
    rw [htarget pid hpi, if_pos hk]
    exact ⟨lookupCell_setCell_self _ _ _,
      fun k hne => lookupCell_setCell_other _ _ k _ hne⟩
  · intro pid hpi hk
    rw [htarget pid hpi, if_neg (by rw [hk]; exact Bool.false_ne_true)]
    exact ⟨lookupCell_setCell_self _ _ _,
      fun k hne => lookupCell_setCell_other _ _ k _ hne⟩
  · intro hpi
    rw [overlayRecord_cells g r hmem, hpi]
    exact ⟨lookupCell_setCell_self _ _ _,
      fun k hne => lookupCell_setCell_other _ _ k _ hne⟩
  · intro rs sid d pid
    exact overlayAll_periodKey g rs sid d pid

/-- C8 witness: overlaying the Monday record on the seeded grid places
its Present status under the record's period cell, and a manual
(period-less) record lands under 'general'. -/
theorem c8_overlay_records_witness :
    lookupCell ((overlayRecord mondayGrid recMonday).cells 10 4)
      (CellKey.period 1) = some (some .P) := by
  have h := c8_overlay_records mondayGrid recMonday (by decide)
  exact (h.1 1 rfl (by decide)).1

/-! ### Report aggregation -/

/-- The WHERE clause keeps a record's row exactly when the record's
period belongs to the requesting teacher and the date bound holds.  The
`a.id IS NULL` disjunct of the source never fires on a record row, so a
period-less record is dropped. -/
theorem whereKeeps_iff (db : DB) (tid : Nat) (bound : Option Int)
    (a : Attendance) (hids : PeriodIdsUnique db) :
    whereKeeps tid bound (some a, tpLookup db a) = true ↔
      KeepProp db tid bound a := by
  unfold whereKeeps KeepProp tpLookup
  cases hpi : a.period_id with
  | none =>
    simp only [Option.none_bind]
    constructor
    · intro h
      simp at h
    · rintro ⟨⟨p, hp, hpe, _⟩, _⟩
      cases hpe
  | some pid =>
    simp only [Option.some_bind]
    cases hf : db.periods.find? (fun p => p.id == pid) with
    | none =>
      constructor
      · intro h
        simp at h
      · rintro ⟨⟨p, hp, hpe, hteach⟩, hdate⟩
        have hpid : pid = p.id := Option.some.inj hpe
        rw [List.find?_eq_none] at hf
        exact absurd (by simp [← hpid] : (p.id == pid) = true)
          (by simpa using hf p hp)
    | some tp0 =>
      have htp0id : tp0.id = pid := by simpa using List.find?_some hf
      have htp0mem := List.mem_of_find?_eq_some hf
      constructor
      · intro h
        simp only [Bool.and_eq_true, Bool.or_eq_true] at h
        obtain ⟨h1, h2⟩ := h
        have hteach : tp0.teacher_id = some tid := by
          rcases h1 with h1 | h1
          · simpa using h1
          · simp at h1
        refine ⟨⟨tp0, htp0mem, by rw [htp0id], hteach⟩, ?_⟩
        cases hb : bound with
        | none => exact le_refl _
        | some b =>
          rw [hb] at h2
          rcases h2 with h2 | h2
          · simp at h2
          · simpa using h2
      · rintro ⟨⟨p, hp, hpe, hteach⟩, hdate⟩
        have hpid : pid = p.id := Option.some.inj hpe
        have hptp : p = tp0 := hids p hp tp0 htp0mem (by rw [← hpid, htp0id])
        simp only [Bool.and_eq_true, Bool.or_eq_true]
        constructor
        · left
          rw [← hptp]
          simpa using hteach
        · right
          cases hb : bound with
          | none => rfl
          | some b =>
            rw [hb] at hdate
            simpa using hdate

theorem whereKeeps_eq_decide (db : DB) (tid : Nat) (bound : Option Int)
    (a : Attendance) (hids : PeriodIdsUnique db) :
    whereKeeps tid bound (some a, tpLookup db a) =
      decide (KeepProp db tid bound a) := by
  by_cases hK : KeepProp db tid bound a
  · rw [(whereKeeps_iff db tid bound a hids).mpr hK, decide_eq_true hK]
  · have h1 : ¬(whereKeeps tid bound (some a, tpLookup db a) = true) :=
      fun h => hK ((whereKeeps_iff db tid bound a hids).mp h)
    rw [Bool.not_eq_true] at h1
    rw [h1, decide_eq_false hK]

theorem reportRowFor_of_no_recs (db : DB) (tid : Nat) (bound : Option Int)
    (s : Student) (h : studentRecs db s = []) :
    reportRowFor db tid bound s =
      some { roll_no := s.roll_no, total_days := 0, present_days := 0,
             absent_days := 0, percentage := none } := by
  have hrows : survivingRows db tid bound s = [(none, none)] := by
    unfold survivingRows studentJoinRows
    rw [if_pos (by rw [h]; rfl)]
    rfl
  unfold reportRowFor
  rw [hrows]
  rfl

/-- C1 counterexample: in `manualOnlyDB`, student 10 belongs to class 1
and has exactly one attendance record, which is manual (no period) and
dated inside the week window, yet the report for teacher 5 contains no
row at all — the claim instead demands one row with presentDays = 1,
totalDays = 1.  The query's `a.id IS NULL` disjunct keeps only students
with no records; it never admits a period-less record. -/
theorem c1_report_counterexample :
    buildReport manualOnlyDB 1 5 .week 100 = [] ∧
    classStudents manualOnlyDB 1 = [student10] ∧
    manualOnlyDB.attendance = [recManual] ∧
    recManual.student_id = student10.id ∧
    recManual.period_id = none ∧
    recManual.status = Status.P ∧
    (100 : Int) - 7 ≤ recManual.date := by
  refine ⟨by decide, by decide, by decide, by decide, by decide, by decide,
    by decide⟩

/-- C1 (amended): the report has the week/month/full lower bounds
now−7d / now−30d / none and one row per surviving student group in
roll-number order; a record with no period is never counted; a student
with no records at all gets a zero row with null percentage; a student
with records gets no row exactly when none of their records is kept,
and otherwise one row counting exactly the records attributed to a
period of the requesting teacher within the bound, with
presentDays = count(P), absentDays = count(A) and
percentage = round(presentDays·100/totalDays, 2). -/
theorem c1_report_aggregator (db : DB) (cid tid : Nat) (rp : ReportPeriod)
    (today : Int) (hids : PeriodIdsUnique db) :
    (boundFor .week today = some (today - 7) ∧
     boundFor .month today = some (today - 30) ∧
     boundFor .full today = none) ∧
    buildReport db cid tid rp today =
      (classStudents db cid).filterMap
        (reportRowFor db tid (boundFor rp today)) ∧
    (∀ a : Attendance, a.period_id = none →
      ¬ KeepProp db tid (boundFor rp today) a) ∧
    (∀ s : Student, s ∈ classStudents db cid →
      (studentRecs db s = [] →
        reportRowFor db tid (boundFor rp today) s =
          some { roll_no := s.roll_no, total_days := 0, present_days := 0,
                 absent_days := 0, percentage := none }) ∧
      (studentRecs db s ≠ [] →
        (reportRowFor db tid (boundFor rp today) s = none ↔
          ∀ a ∈ studentRecs db s, ¬ KeepProp db tid (boundFor rp today) a) ∧
        (∀ r, reportRowFor db tid (boundFor rp today) s = some r →
          r.roll_no = s.roll_no ∧
          r.total_days = (studentRecs db s).countP
            (fun a => decide (KeepProp db tid (boundFor rp today) a)) ∧
          r.present_days = (studentRecs db s).countP
            (fun a => decide (KeepProp db tid (boundFor rp today) a) &&
              (a.status == Status.P)) ∧
          r.absent_days = (studentRecs db s).countP
            (fun a => decide (KeepProp db tid (boundFor rp today) a) &&
              (a.status == Status.A)) ∧
          0 < r.total_days ∧
          r.percentage =
            some (roundHalfUp2 r.present_days r.total_days)))) := by
  set bound := boundFor rp today with hbound
  refine ⟨⟨rfl, rfl, rfl⟩, rfl, ?_, ?_⟩
  · rintro a hnone ⟨⟨p, _, hpe, _⟩, _⟩
    rw [hnone] at hpe
    cases hpe
  · intro s _
    constructor
    · exact reportRowFor_of_no_recs db tid bound s
    · intro hne
      have hrows := survivingRows_of_recs db tid bound s
        (by rw [List.isEmpty_iff]; exact hne)
      have hfeq : (studentRecs db s).filter
          (fun a => whereKeeps tid bound (some a, tpLookup db a)) =
          (studentRecs db s).filter
          (fun a => decide (KeepProp db tid bound a)) := by
        apply List.filter_congr
        intro a _
        exact whereKeeps_eq_decide db tid bound a hids
      constructor
      · unfold reportRowFor
        rw [hrows]
        by_cases he : ((studentRecs db s).filter
            (fun a => whereKeeps tid bound (some a, tpLookup db a))).isEmpty
        · rw [List.isEmpty_iff] at he
          rw [he]
          simp only [List.map_nil]
          rw [if_pos (by rfl)]
          refine iff_of_true rfl ?_
          intro a ha hK
          have : a ∈ (studentRecs db s).filter
              (fun a => whereKeeps tid bound (some a, tpLookup db a)) :=
            List.mem_filter.mpr
              ⟨ha, (whereKeeps_iff db tid bound a hids).mpr hK⟩
          rw [he] at this
          cases this
        · rw [List.isEmpty_iff] at he
          rcases hl : (studentRecs db s).filter
              (fun a => whereKeeps tid bound (some a, tpLookup db a)) with
            _ | ⟨b, bs⟩
          · exact absurd hl he
          · rw [if_neg (by simp)]
            refine iff_of_false (by simp) ?_
            intro hall
            have hb : b ∈ (studentRecs db s).filter
                (fun a => whereKeeps tid bound (some a, tpLookup db a)) := by
              rw [hl]
              exact List.mem_cons_self b bs
            obtain ⟨hb1, hb2⟩ := List.mem_filter.mp hb
            exact hall b hb1 ((whereKeeps_iff db tid bound b hids).mp hb2)
      · intro r hr
        unfold reportRowFor at hr
        rw [hrows] at hr
        by_cases he : (((studentRecs db s).filter
            (fun a => whereKeeps tid bound (some a, tpLookup db a))).map
            (fun a => ((some a : Option Attendance), tpLookup db a))).isEmpty
        · rw [if_pos he] at hr
          cases hr
        · rw [if_neg he] at hr
          have hlen0 : ((studentRecs db s).filter
              (fun a => whereKeeps tid bound (some a, tpLookup db a))).length ≠
              0 := by
            intro hcon
            rw [List.length_eq_zero] at hcon
            rw [List.isEmpty_iff] at he
            exact he (by rw [hcon]; rfl)
          have htot : (((studentRecs db s).filter
              (fun a => whereKeeps tid bound (some a, tpLookup db a))).map
              (fun a => ((some a : Option Attendance), tpLookup db a))).countP
              (fun r => r.1.isSome) =
              ((studentRecs db s).filter
                (fun a => whereKeeps tid bound (some a, tpLookup db a))).length := by
            rw [List.countP_map]
            have : ((fun (r : Option Attendance × Option Period) => r.1.isSome) ∘
                (fun a => ((some a : Option Attendance), tpLookup db a))) =
                (fun _ => true) := rfl
            rw [this]
            simp
          have hpres : (((studentRecs db s).filter
              (fun a => whereKeeps tid bound (some a, tpLookup db a))).map
              (fun a => ((some a : Option Attendance), tpLookup db a))).countP
              rowIsPresent =
              (studentRecs db s).countP
                (fun a => decide (KeepProp db tid bound a) &&
                  (a.status == Status.P)) := by
            rw [List.countP_map]
            have hco : (rowIsPresent ∘
                (fun a : Attendance =>
                  ((some a : Option Attendance), tpLookup db a))) =
                (fun a : Attendance => a.status == Status.P) := rfl
            rw [hco, List.countP_filter]
            apply List.countP_congr
            intro a ha
            rw [whereKeeps_eq_decide db tid bound a hids, Bool.and_comm]
          have habs : (((studentRecs db s).filter
              (fun a => whereKeeps tid bound (some a, tpLookup db a))).map
              (fun a => ((some a : Option Attendance), tpLookup db a))).countP
              rowIsAbsent =
              (studentRecs db s).countP
                (fun a => decide (KeepProp db tid bound a) &&
                  (a.status == Status.A)) := by
            rw [List.countP_map]
            have hco : (rowIsAbsent ∘
                (fun a : Attendance =>
                  ((some a : Option Attendance), tpLookup db a))) =
                (fun a : Attendance => a.status == Status.A) := rfl
            rw [hco, List.countP_filter]
            apply List.countP_congr
            intro a ha
            rw [whereKeeps_eq_decide db tid bound a hids, Bool.and_comm]
          have hcnt : ((studentRecs db s).filter
              (fun a => whereKeeps tid bound (some a, tpLookup db a))).length =
              (studentRecs db s).countP
                (fun a => decide (KeepProp db tid bound a)) := by
            rw [hfeq, List.countP_eq_length_filter]
          cases hr
          refine ⟨rfl, ?_, ?_, ?_, ?_, ?_⟩
          · rw [htot, hcnt]
          · rw [hpres]
          · rw [habs]
          · show 0 < (((studentRecs db s).filter
              (fun a => whereKeeps tid bound (some a, tpLookup db a))).map
              (fun a => ((some a : Option Attendance), tpLookup db a))).countP
              (fun r => r.1.isSome)
            rw [htot]
            omega
          · show (if (((studentRecs db s).filter
                (fun a => whereKeeps tid bound (some a, tpLookup db a))).map
                (fun a => ((some a : Option Attendance), tpLookup db a))).countP
                (fun r => r.1.isSome) = 0 then none
              else some (roundHalfUp2 ((((studentRecs db s).filter
                (fun a => whereKeeps tid bound (some a, tpLookup db a))).map
                (fun a => ((some a : Option Attendance), tpLookup db a))).countP
                rowIsPresent) ((((studentRecs db s).filter
                (fun a => whereKeeps tid bound (some a, tpLookup db a))).map
                (fun a => ((some a : Option Attendance), tpLookup db a))).countP
                (fun r => r.1.isSome)))) = _
            rw [if_neg (by rw [htot]; exact hlen0)]

/-- C1 witness: in the concrete database the student's row for the week
report of teacher 5 counts exactly the one record taught by teacher 5
(status Absent): totalDays = 1, presentDays = 0, absentDays = 1; the
record of teacher 6's period and the manual record are not counted. -/
theorem c1_report_aggregator_witness :
    ∃ r, reportRowFor cascadeDB 5 (boundFor .week 100) student10 = some r ∧
      r.total_days = 1 ∧ r.present_days = 0 ∧ r.absent_days = 1 := by
  have h := c1_report_aggregator cascadeDB 1 5 .week 100
    (by unfold PeriodIdsUnique; decide)
  have hs := (h.2.2.2 student10 (by decide)).2 (by decide)
  cases hrw : reportRowFor cascadeDB 5 (boundFor .week 100) student10 with
  | none =>
    have := hs.1.mp hrw recSamplePeriod (by decide)
    exact absurd (by decide : KeepProp cascadeDB 5 (boundFor .week 100)
      recSamplePeriod) this
  | some r =>
    obtain ⟨_, ht, hp, ha, _, _⟩ := hs.2 r hrw
    refine ⟨r, rfl, ?_, ?_, ?_⟩
    · rw [ht]; decide
    · rw [hp]; decide
    · rw [ha]; decide

end ITAttendance
